import Mathlib

/-!
Verification of the proton-ctl region controller
(`scripts/modules/proton-ctl/proton_ctl.py`).

Strings are modelled as `List Char` (`Str`), and the Python string
primitives used by the program (`split`, `replace`, `strip`,
`startswith`, `endswith`, `os.path.basename`, `os.path.join`) are given
faithful executable models.  The filesystem is a record holding the
content of `proton.conf` (if the file exists) and the listing of the
`regions/` directory (if it exists); the service manager is an oracle
supplied as an argument (the pair of a success flag and a diagnostic
string for an action, a boolean for `systemctl is-active`).
-/

/-- Python strings, modelled as lists of characters. -/
abbrev Str := List Char

/-- Python `s.startswith(pre)` (argument order: pattern, then string). -/
def pyStartsWith : Str → Str → Bool
  | [], _ => true
  | _ :: _, [] => false
  | a :: p, b :: s => a == b && pyStartsWith p s

/-- Python `s.endswith(suf)` (argument order: pattern, then string). -/
def pyEndsWith (suf s : Str) : Bool :=
  pyStartsWith suf.reverse s.reverse

/-- Leftmost occurrence of `sep` in `s`: the part strictly before the
first occurrence, and the part strictly after it.  `none` when `sep`
does not occur (we never call it with an empty `sep`, mirroring Python,
where `split("")` is an error). -/
def splitFirst (sep : Str) : Str → Option (Str × Str)
  | [] => none
  | c :: cs =>
    if pyStartsWith sep (c :: cs) then some ([], (c :: cs).drop sep.length)
    else (splitFirst sep cs).map (fun pr => (c :: pr.1, pr.2))

/-- Fuel-indexed worker for `pySplit`; `fuel` at least the length of the
string makes the fuel irrelevant. -/
def pySplitAux (sep : Str) : Nat → Str → List Str
  | 0, s => [s]
  | fuel + 1, s =>
    match splitFirst sep s with
    | none => [s]
    | some (p, r) => p :: pySplitAux sep fuel r

/-- Python `s.split(sep)` for a nonempty separator: splits at every
non-overlapping occurrence, keeping empty pieces. -/
def pySplit (sep s : Str) : List Str :=
  pySplitAux sep s.length s

/-- Python `s.replace(old, new)` for a nonempty `old`: equal to
`new.join(s.split(old))`. -/
def pyReplace (pat repl s : Str) : Str :=
  List.intercalate repl (pySplit pat s)

/-- The whitespace characters removed by Python `str.strip()`. -/
def isPySpace (c : Char) : Bool :=
  c == ' ' || c == '\t' || c == '\n' || c == '\r' || c == '\x0b' || c == '\x0c'

/-- Python `s.strip()`: remove leading and trailing whitespace. -/
def pyStrip (s : Str) : Str :=
  ((s.dropWhile isPySpace).reverse.dropWhile isPySpace).reverse

/-- `os.path.basename`: the part of the path after the last `/`. -/
def basename (p : Str) : Str :=
  (pySplit ['/'] p).getLastD []

/-- `os.path.join(a, b)` on POSIX, for one join component. -/
def osJoin (a b : Str) : Str :=
  if pyStartsWith ['/'] b then b
  else if a = [] then b
  else if a.getLast? = some '/' then a ++ b
  else a ++ '/' :: b

/-! Module-level constants of `proton_ctl.py` (with `PROTON_CONFIG_DIR`
left at its default value `/etc/wireproxy`). -/

def CONFIG_DIR : Str := "/etc/wireproxy".toList

def PROTON_CONFIG : Str := osJoin CONFIG_DIR ("proton.conf".toList)

def REGIONS_DIR : Str := osJoin CONFIG_DIR ("regions".toList)

def DEFAULT_SOCKS_BIND : Str := "127.0.0.1:25345".toList

/-- The literal `".conf"`. -/
def confExt : Str := ".conf".toList

/-- The literal `"WGConfig"` that `get_current_region` scans for. -/
def wgKey : Str := "WGConfig".toList

/-- One value of the `regions` dictionary built by
`get_available_regions`: the profile's path and its display name. -/
structure RegionInfo where
  file : Str
  name : Str
deriving DecidableEq

/-- A Python `dict`, modelled as an ordered association list with unique
keys: assignment to an existing key updates it in place, assignment to a
fresh key appends (insertion order, as Python dicts preserve). -/
def dictInsert (d : List (Str × RegionInfo)) (k : Str) (v : RegionInfo) :
    List (Str × RegionInfo) :=
  if d.any (fun p => p.1 == k) then
    d.map (fun p => if p.1 == k then (k, v) else p)
  else d ++ [(k, v)]

/-- `name.split("-")[-1] if "-" in name else name`. -/
def codeOfName (name : Str) : Str :=
  if name.contains '-' then (pySplit ['-'] name).getLastD []
  else name

/-- The region code `get_available_regions` derives from a filename:
delete every occurrence of `".conf"`, then take the part after the last
`-` (or the whole stem when there is no `-`). -/
def codeOfFilename (f : Str) : Str :=
  codeOfName (pyReplace confExt [] f)

/-- The dictionary value stored for filename `f`. -/
def regionInfo (f : Str) : RegionInfo :=
  RegionInfo.mk (osJoin REGIONS_DIR f) ((codeOfFilename f).map Char.toUpper)

/-- One iteration of the `for f in os.listdir(REGIONS_DIR)` loop. -/
def regionStep (regions : List (Str × RegionInfo)) (f : Str) :
    List (Str × RegionInfo) :=
  if pyEndsWith confExt f then dictInsert regions (codeOfFilename f) (regionInfo f)
  else regions

/-- `get_available_regions()`: the input is the listing of the regions
directory, `none` when the directory does not exist. -/
def get_available_regions (dir : Option (List Str)) : List (Str × RegionInfo) :=
  match dir with
  | none => []
  | some fs => fs.foldl regionStep []

/-- Outcome of a Python computation that may raise an uncaught
exception (here: the `IndexError` from `line.split("=")[1]`). -/
inductive PyResult (α : Type) where
  | ok (val : α)
  | exn
deriving DecidableEq

/-- Whether a `PyResult` is a normal return. -/
def PyResult.isOk : PyResult α → Bool
  | .ok _ => true
  | .exn => false

/-- The body of `get_current_region`'s loop for a line that starts with
`WGConfig`: `path = line.split("=")[1].strip()`, then the filename-stem
code derivation.  `line.split("=")[1]` raises `IndexError` when the
line contains no `=`. -/
def parseWG (line : Str) : PyResult Str :=
  match (pySplit ['='] line).get? 1 with
  | none => .exn
  | some seg =>
    let path := pyStrip seg
    let filename := basename path
    let name := pyReplace confExt [] filename
    .ok (codeOfName name)

/-- The `for line in content.split("\n")` loop of `get_current_region`:
the first line starting with `WGConfig` decides the result. -/
def findWG : List Str → PyResult (Option Str)
  | [] => .ok none
  | l :: rest =>
    if pyStartsWith wgKey l then
      match parseWG l with
      | .ok c => .ok (some c)
      | .exn => .exn
    else findWG rest

/-- `get_current_region()`: the input is the content of `proton.conf`,
`none` when the file does not exist. -/
def get_current_region (cfg : Option Str) : PyResult (Option Str) :=
  match cfg with
  | none => .ok none
  | some content => findWG (pySplit ['\n'] content)

/-- The configuration text written by `update_config`, for a given
WireGuard config path and SOCKS bind address. -/
def update_config_content (p bind : Str) : Str :=
  "# Proton VPN Configuration\n# Managed by proton-ctl API\n\nWGConfig = ".toList
    ++ p
    ++ "\n\n[Socks5]\nBindAddress = ".toList
    ++ bind
    ++ "\n".toList

/-- `update_config(path)` with the default SOCKS bind address, as the
switch endpoint calls it: the new content of `proton.conf`. -/
def update_config (p : Str) : Str :=
  update_config_content p DEFAULT_SOCKS_BIND

/-- The filesystem state the program observes and mutates: the content
of `proton.conf` (`none` when absent) and the listing of the `regions/`
directory (`none` when absent). -/
structure FsState where
  config : Option Str
  regions : Option (List Str)
deriving DecidableEq

/-- Response of the `/api/proton/switch` endpoint. -/
inductive SwitchResp where
  | invalidRequest
  | unknownRegion (region : Str) (available : List Str)
  | restartFailed (error : Str)
  | success (region : Str) (restarted : Bool)
deriving DecidableEq

/-- HTTP status code attached to each switch response. -/
def switchStatusCode : SwitchResp → Nat
  | .invalidRequest => 400
  | .unknownRegion _ _ => 400
  | .restartFailed _ => 500
  | .success _ _ => 200

/-- The `/api/proton/switch` handler.  `region` is the request's region
field (`none` when missing), `active` the result of `get_service_status()`
(queried after the config write), `res` the outcome of
`run_systemctl("restart")` — a success flag and a diagnostic string.
Returns the response, the new filesystem state, and whether the restart
action was issued to the service manager. -/
def switch_region (st : FsState) (region : Option Str) (active : Bool)
    (res : Bool × Str) : SwitchResp × FsState × Bool :=
  match region with
  | none => (.invalidRequest, st, false)
  | some r =>
    if r = [] then (.invalidRequest, st, false)
    else
      match List.lookup r (get_available_regions st.regions) with
      | none =>
        (.unknownRegion r ((get_available_regions st.regions).map Prod.fst),
         st, false)
      | some info =>
        let st' := FsState.mk (some (update_config info.file)) st.regions
        if active then
          if res.1 then (.success r true, st', true)
          else (.restartFailed res.2, st', true)
        else (.success r false, st', false)

/-- Response of the `/api/proton/status` endpoint. -/
structure StatusResp where
  running : Bool
  region : Option Str
  config_file : Str
deriving DecidableEq

/-- The `/api/proton/status` handler: `active` is the (never-raising)
result of `get_service_status()`.  Raises whenever
`get_current_region` raises. -/
def status_endpoint (st : FsState) (active : Bool) : PyResult StatusResp :=
  match get_current_region st.config with
  | .ok r => .ok (StatusResp.mk active r PROTON_CONFIG)
  | .exn => .exn

/-- Response of the `/api/proton/start` endpoint. -/
inductive StartResp where
  | notConfigured
  | failed (error : Str)
  | ok (running : Bool)
deriving DecidableEq

/-- HTTP status code attached to each start response. -/
def startStatusCode : StartResp → Nat
  | .notConfigured => 400
  | .failed _ => 500
  | .ok _ => 200

/-- The `/api/proton/start` handler: `cfg` is the content of
`proton.conf` (`none` when the file does not exist), `res` the outcome
of `run_systemctl("start")`.  Also returns whether the start action was
issued. -/
def start (cfg : Option Str) (res : Bool × Str) : StartResp × Bool :=
  match cfg with
  | none => (.notConfigured, false)
  | some _ => (if res.1 then .ok true else .failed res.2, true)

/-- Response of the `/api/proton/stop` endpoint. -/
inductive StopResp where
  | failed (error : Str)
  | ok (running : Bool)
deriving DecidableEq

/-- The `/api/proton/stop` handler: `res` is the outcome of
`run_systemctl("stop")`.  The action is issued unconditionally — the
handler never consults the daemon's current state — so the second
component (whether the stop action was issued) is always `true`. -/
def stop (res : Bool × Str) : StopResp × Bool :=
  (if res.1 then .ok false else .failed res.2, true)

/-- Modelled from the spec: the external service manager's `stop`
action, which is not part of this repository.  Per the specification,
stopping an already-stopped service succeeds (the manager is
idempotent), and after a successful stop the daemon is not running.
Returns the action outcome and the daemon's new state. -/
def smStop (_running : Bool) : (Bool × Str) × Bool :=
  ((true, []), false)

/-! ### Lemmas about the Python string primitives -/

theorem pyStartsWith_iff (p s : Str) : pyStartsWith p s = true ↔ p <+: s := by
  induction p generalizing s with
  | nil => simp [pyStartsWith]
  | cons a p ih =>
    cases s with
    | nil => simp [pyStartsWith]
    | cons b s =>
      simp [pyStartsWith, ih, List.cons_prefix_cons]

theorem pyStartsWith_append (p l t : Str) (h : pyStartsWith p l = true) :
    pyStartsWith p (l ++ t) = true := by
  rw [pyStartsWith_iff] at h ⊢
  exact h.trans (List.prefix_append l t)

theorem pyStartsWith_single_eq_false (c : Char) (s : Str) (h : c ∉ s) :
    pyStartsWith [c] s = false := by
  cases s with
  | nil => rfl
  | cons b t =>
    simp only [List.mem_cons, not_or] at h
    simp [pyStartsWith, h.1]

theorem pyEndsWith_iff (suf s : Str) : pyEndsWith suf s = true ↔ ∃ t, s = t ++ suf := by
  rw [pyEndsWith, pyStartsWith_iff]
  constructor
  · intro h
    rcases h with ⟨t, ht⟩
    refine ⟨t.reverse, ?_⟩
    have := congrArg List.reverse ht
    simpa [List.reverse_append] using this.symm
  · rintro ⟨t, rfl⟩
    exact ⟨t.reverse, by simp [List.reverse_append]⟩

theorem splitFirst_none_of_not_mem (c : Char) (s : Str) (h : c ∉ s) :
    splitFirst [c] s = none := by
  induction s with
  | nil => rfl
  | cons b t ih =>
    simp only [List.mem_cons, not_or] at h
    have hpre : pyStartsWith [c] (b :: t) = false := by
      simp [pyStartsWith, h.1]
    simp [splitFirst, hpre, ih h.2]

theorem splitFirst_single_append (c : Char) (p r : Str) (h : c ∉ p) :
    splitFirst [c] (p ++ c :: r) = some (p, r) := by
  induction p with
  | nil =>
    simp [splitFirst, pyStartsWith]
  | cons a p ih =>
    simp only [List.mem_cons, not_or] at h
    have hpre : pyStartsWith [c] (a :: (p ++ c :: r)) = false := by
      simp [pyStartsWith, h.1]
    simp [splitFirst, hpre, ih h.2]

theorem splitFirst_length (sep : Str) :
    ∀ s p r, splitFirst sep s = some (p, r) →
      p.length + sep.length + r.length = s.length := by
  intro s
  induction s with
  | nil => intro p r h; simp [splitFirst] at h
  | cons c cs ih =>
    intro p r h
    by_cases hpre : pyStartsWith sep (c :: cs) = true
    · rw [splitFirst, if_pos hpre] at h
      rcases (pyStartsWith_iff sep (c :: cs)).mp hpre with ⟨t, ht⟩
      injection h with h1
      have hp : p = [] := (congrArg Prod.fst h1).symm
      have hr : r = (c :: cs).drop sep.length := (congrArg Prod.snd h1).symm
      subst hp hr
      rw [← ht, List.drop_left]
      simp [List.length_append]
    · rw [splitFirst, if_neg hpre] at h
      cases hsp : splitFirst sep cs with
      | none => rw [hsp] at h; simp at h
      | some pr =>
        rw [hsp] at h
        rw [Option.map_some'] at h
        injection h with h1
        have hp : p = c :: pr.1 := (congrArg Prod.fst h1).symm
        have hr : r = pr.2 := (congrArg Prod.snd h1).symm
        subst hp hr
        have := ih pr.1 pr.2 (by rw [hsp])
        simp [List.length_cons]
        omega

theorem splitFirst_nil_eq_none (sep : Str) : splitFirst sep [] = none := rfl

theorem pySplitAux_of_none (sep : Str) (s : Str) (h : splitFirst sep s = none) :
    ∀ fuel, pySplitAux sep fuel s = [s] := by
  intro fuel
  cases fuel with
  | zero => rfl
  | succ n => simp [pySplitAux, h]

theorem pySplitAux_congr (sep : Str) (hsep : sep ≠ []) :
    ∀ f₁ f₂ s, s.length ≤ f₁ → s.length ≤ f₂ →
      pySplitAux sep f₁ s = pySplitAux sep f₂ s := by
  intro f₁
  induction f₁ with
  | zero =>
    intro f₂ s h₁ h₂
    have : s = [] := List.length_eq_zero.mp (Nat.le_zero.mp h₁)
    subst this
    rw [pySplitAux_of_none sep [] (splitFirst_nil_eq_none sep),
        pySplitAux_of_none sep [] (splitFirst_nil_eq_none sep)]
  | succ n ih =>
    intro f₂ s h₁ h₂
    cases hsp : splitFirst sep s with
    | none => rw [pySplitAux_of_none sep s hsp, pySplitAux_of_none sep s hsp]
    | some pr =>
      have hlen := splitFirst_length sep s pr.1 pr.2 (by rw [hsp])
      have hs : s ≠ [] := by
        intro hnil; subst hnil
        rw [splitFirst_nil_eq_none] at hsp; exact Option.noConfusion hsp
      have hslen : 1 ≤ s.length := by
        cases s with
        | nil => exact absurd rfl hs
        | cons a t => simp
      cases f₂ with
      | zero => omega
      | succ m =>
        have hsepl : 1 ≤ sep.length := by
          cases sep with
          | nil => exact absurd rfl hsep
          | cons a t => simp
        simp only [pySplitAux, hsp]
        congr 1
        exact ih m pr.2 (by omega) (by omega)

theorem pySplit_of_not_mem (c : Char) (s : Str) (h : c ∉ s) :
    pySplit [c] s = [s] :=
  pySplitAux_of_none [c] s (splitFirst_none_of_not_mem c s h) s.length

theorem pySplitAux_ne_nil (sep : Str) (fuel : Nat) (s : Str) :
    pySplitAux sep fuel s ≠ [] := by
  cases fuel with
  | zero => simp [pySplitAux]
  | succ n =>
    rw [pySplitAux]
    cases splitFirst sep s with
    | none => simp
    | some pr => simp

theorem pySplit_ne_nil (sep s : Str) : pySplit sep s ≠ [] :=
  pySplitAux_ne_nil sep s.length s

theorem pySplit_single_append (c : Char) (p r : Str) (h : c ∉ p) :
    pySplit [c] (p ++ c :: r) = p :: pySplit [c] r := by
  have hlen : (p ++ c :: r).length = (p.length + r.length) + 1 := by
    simp [List.length_append]
    omega
  rw [pySplit, hlen]
  simp only [pySplitAux, splitFirst_single_append c p r h]
  congr 1
  exact pySplitAux_congr [c] (by simp) (p.length + r.length) r.length r
    (by omega) (by omega)

theorem exists_first_mem (c : Char) (s : Str) (h : c ∈ s) :
    ∃ p r, s = p ++ c :: r ∧ c ∉ p := by
  induction s with
  | nil => simp at h
  | cons a t ih =>
    by_cases hac : c = a
    · exact ⟨[], t, by simp [hac], by simp⟩
    · have hct : c ∈ t := by
        rcases List.mem_cons.mp h with h1 | h1
        · exact absurd h1 hac
        · exact h1
      rcases ih hct with ⟨p, r, hpr, hcp⟩
      exact ⟨a :: p, r, by rw [hpr]; rfl, by simp [hcp, Ne.symm, hac]⟩

theorem getLastD_cons_of_ne_nil (a : Str) (l : List Str) (d d' : Str)
    (h : l ≠ []) : (a :: l).getLastD d = l.getLastD d' := by
  cases l with
  | nil => exact absurd rfl h
  | cons b t => simp [List.getLastD]

theorem getLastD_pySplit_append (c : Char) (f : Str) (hf : c ∉ f) :
    ∀ (n : Nat) (s : Str), s.length ≤ n →
      (pySplit [c] (s ++ c :: f)).getLastD [] = f := by
  intro n
  induction n with
  | zero =>
    intro s hs
    have : s = [] := List.length_eq_zero.mp (Nat.le_zero.mp hs)
    subst this
    rw [pySplit_single_append c [] f (by simp), pySplit_of_not_mem c f hf]
    simp [List.getLastD]
  | succ m ih =>
    intro s hs
    by_cases hcs : c ∈ s
    · rcases exists_first_mem c s hcs with ⟨p, r, hpr, hcp⟩
      subst hpr
      have : p ++ c :: r ++ c :: f = p ++ c :: (r ++ c :: f) := by simp
      rw [this, pySplit_single_append c p (r ++ c :: f) hcp]
      rw [getLastD_cons_of_ne_nil p _ [] [] (pySplit_ne_nil [c] (r ++ c :: f))]
      exact ih r (by simp at hs ⊢; omega)
    · rw [pySplit_single_append c s f hcs,
          getLastD_cons_of_ne_nil s _ [] [] (pySplit_ne_nil [c] f),
          pySplit_of_not_mem c f hf]
      rfl

theorem basename_append (s f : Str) (hf : ('/' : Char) ∉ f) :
    basename (s ++ '/' :: f) = f :=
  getLastD_pySplit_append ('/' : Char) f hf s.length s (Nat.le_refl _)

theorem pyStrip_cons_space (s : Str) : pyStrip (' ' :: s) = pyStrip s := by
  rw [pyStrip, pyStrip, List.dropWhile_cons]
  simp [isPySpace]

theorem pyStrip_of_ends (l : Str) (a b : Char) (h1 : l.head? = some a)
    (h2 : l.getLast? = some b) (ha : isPySpace a = false)
    (hb : isPySpace b = false) : pyStrip l = l := by
  have hl1 : l.dropWhile isPySpace = l := by
    cases l with
    | nil => rfl
    | cons x t =>
      have : x = a := by
        simp [List.head?] at h1
        exact h1
      rw [List.dropWhile_cons, this, ha]
      simp
  have hrev : l.reverse.head? = some b := by
    rw [List.head?_reverse]
    exact h2
  have hl2 : l.reverse.dropWhile isPySpace = l.reverse := by
    cases hr : l.reverse with
    | nil => rfl
    | cons y u =>
      have : y = b := by
        rw [hr] at hrev
        simp [List.head?] at hrev
        exact hrev
      rw [List.dropWhile_cons, this, hb]
      simp
  rw [pyStrip, hl1, hl2, List.reverse_reverse]

/-! ### Lemmas about the dictionary model and the region catalog -/

theorem lookup_map_update (d : List (Str × RegionInfo)) (k : Str) (v : RegionInfo)
    (h : d.any (fun p => p.1 == k) = true) :
    List.lookup k (d.map (fun p => if p.1 == k then (k, v) else p)) = some v := by
  induction d with
  | nil => simp at h
  | cons p t ih =>
    rw [List.map_cons]
    by_cases hp : p.1 = k
    · rw [if_pos (beq_iff_eq.mpr hp)]
      simp [List.lookup]
    · have hpf : (p.1 == k) = false := beq_eq_false_iff_ne.mpr hp
      have ht : t.any (fun q => q.1 == k) = true := by
        simp only [List.any_cons, hpf, Bool.false_or] at h
        exact h
      rw [if_neg (by simp [hp])]
      rw [List.lookup, beq_eq_false_iff_ne.mpr (fun hh => hp hh.symm)]
      exact ih ht

theorem lookup_map_update_ne (d : List (Str × RegionInfo)) (k k' : Str)
    (v : RegionInfo) (hne : k' ≠ k) :
    List.lookup k' (d.map (fun p => if p.1 == k then (k, v) else p)) =
      List.lookup k' d := by
  induction d with
  | nil => simp
  | cons p t ih =>
    rw [List.map_cons]
    by_cases hp : p.1 = k
    · rw [if_pos (beq_iff_eq.mpr hp)]
      rw [List.lookup, List.lookup, beq_eq_false_iff_ne.mpr hne,
          beq_eq_false_iff_ne.mpr (fun hh => hne (hh.trans hp))]
      exact ih
    · rw [if_neg (by simp [hp])]
      cases hk : (k' == p.1) with
      | true => rw [List.lookup, List.lookup, hk]
      | false =>
        rw [List.lookup, List.lookup, hk]
        exact ih

theorem lookup_append_self (d : List (Str × RegionInfo)) (k : Str) (v : RegionInfo)
    (h : d.any (fun p => p.1 == k) = false) :
    List.lookup k (d ++ [(k, v)]) = some v := by
  induction d with
  | nil => simp [List.lookup]
  | cons p t ih =>
    simp only [List.any_cons, Bool.or_eq_false_iff] at h
    have hk : (k == p.1) = false :=
      beq_eq_false_iff_ne.mpr (fun hh => beq_eq_false_iff_ne.mp h.1 hh.symm)
    rw [List.cons_append, List.lookup, hk]
    exact ih h.2

theorem lookup_append_ne (d : List (Str × RegionInfo)) (k k' : Str) (v : RegionInfo)
    (hne : k' ≠ k) :
    List.lookup k' (d ++ [(k, v)]) = List.lookup k' d := by
  induction d with
  | nil =>
    simp [List.lookup, beq_eq_false_iff_ne.mpr hne]
  | cons p t ih =>
    cases hk : (k' == p.1) with
    | true => rw [List.cons_append, List.lookup, List.lookup, hk]
    | false =>
      rw [List.cons_append, List.lookup, List.lookup, hk]
      exact ih

theorem lookup_dictInsert_self (d : List (Str × RegionInfo)) (k : Str)
    (v : RegionInfo) : List.lookup k (dictInsert d k v) = some v := by
  rw [dictInsert]
  cases h : d.any (fun p => p.1 == k) with
  | true => simp only [if_true]; exact lookup_map_update d k v h
  | false => simp only [Bool.false_eq_true, if_false]; exact lookup_append_self d k v h

theorem lookup_dictInsert_ne (d : List (Str × RegionInfo)) (k k' : Str)
    (v : RegionInfo) (hne : k' ≠ k) :
    List.lookup k' (dictInsert d k v) = List.lookup k' d := by
  rw [dictInsert]
  cases h : d.any (fun p => p.1 == k) with
  | true => simp only [if_true]; exact lookup_map_update_ne d k k' v hne
  | false => simp only [Bool.false_eq_true, if_false]; exact lookup_append_ne d k k' v hne

theorem mem_dictInsert (d : List (Str × RegionInfo)) (k : Str) (v : RegionInfo)
    (x : Str × RegionInfo) (hx : x ∈ dictInsert d k v) : x ∈ d ∨ x = (k, v) := by
  rw [dictInsert] at hx
  by_cases h : d.any (fun p => p.1 == k) = true
  · rw [if_pos h] at hx
    rcases List.mem_map.mp hx with ⟨p, hp, hpx⟩
    by_cases hpk : p.1 = k
    · right
      rw [← hpx]
      simp [beq_iff_eq.mpr hpk]
    · left
      rw [← hpx]
      simpa [beq_eq_false_iff_ne.mpr hpk] using hp
  · rw [if_neg h] at hx
    rcases List.mem_append.mp hx with h1 | h1
    · exact Or.inl h1
    · exact Or.inr (List.mem_singleton.mp h1)

theorem lookup_mem (l : List (Str × RegionInfo)) (k : Str) (v : RegionInfo)
    (h : List.lookup k l = some v) : (k, v) ∈ l := by
  induction l with
  | nil => simp [List.lookup] at h
  | cons p t ih =>
    obtain ⟨a, b⟩ := p
    cases hk : (k == a) with
    | true =>
      rw [List.lookup, hk] at h
      injection h with hv
      have hka : k = a := beq_iff_eq.mp hk
      rw [hka, hv]
      exact List.mem_cons_self (a, v) t
    | false =>
      rw [List.lookup, hk] at h
      exact List.mem_cons_of_mem (a, b) (ih h)

theorem lookup_foldl_of_no_code (L : List Str) :
    ∀ (acc : List (Str × RegionInfo)) (c : Str),
      (∀ g ∈ L, pyEndsWith confExt g = true → codeOfFilename g ≠ c) →
      List.lookup c (L.foldl regionStep acc) = List.lookup c acc := by
  induction L with
  | nil => intro acc c _; rfl
  | cons a L ih =>
    intro acc c h
    rw [List.foldl_cons]
    rw [ih (regionStep acc a) c (fun g hg => h g (List.mem_cons_of_mem a hg))]
    rw [regionStep]
    cases hconf : pyEndsWith confExt a with
    | true =>
      rw [if_pos rfl]
      exact lookup_dictInsert_ne acc (codeOfFilename a) c (regionInfo a)
        (fun hc => h a (List.mem_cons_self a L) hconf hc.symm)
    | false => simp

theorem lookup_foldl_unique (L : List Str) :
    ∀ (acc : List (Str × RegionInfo)) (f : Str), f ∈ L →
      pyEndsWith confExt f = true →
      (∀ g ∈ L, pyEndsWith confExt g = true →
        codeOfFilename g = codeOfFilename f → g = f) →
      List.lookup (codeOfFilename f) (L.foldl regionStep acc) =
        some (regionInfo f) := by
  induction L with
  | nil => intro acc f hf; simp at hf
  | cons a L ih =>
    intro acc f hf hconf huniq
    rw [List.foldl_cons]
    by_cases hfL : f ∈ L
    · exact ih (regionStep acc a) f hfL hconf
        (fun g hg hgc => huniq g (List.mem_cons_of_mem a hg) hgc)
    · have hfa : f = a := by
        rcases List.mem_cons.mp hf with h1 | h1
        · exact h1
        · exact absurd h1 hfL
      subst hfa
      have hnone : ∀ g ∈ L, pyEndsWith confExt g = true →
          codeOfFilename g ≠ codeOfFilename f := by
        intro g hg hgconf hgc
        exact hfL (huniq g (List.mem_cons_of_mem f hg) hgconf hgc ▸ hg)
      rw [lookup_foldl_of_no_code L (regionStep acc f) (codeOfFilename f) hnone]
      rw [regionStep, if_pos hconf]
      exact lookup_dictInsert_self acc (codeOfFilename f) (regionInfo f)

theorem mem_foldl_regions (L : List Str) :
    ∀ (acc : List (Str × RegionInfo)) (x : Str × RegionInfo),
      x ∈ L.foldl regionStep acc →
      x ∈ acc ∨ ∃ f ∈ L, pyEndsWith confExt f = true ∧
        x = (codeOfFilename f, regionInfo f) := by
  induction L with
  | nil => intro acc x hx; exact Or.inl hx
  | cons a L ih =>
    intro acc x hx
    rw [List.foldl_cons] at hx
    rcases ih (regionStep acc a) x hx with h1 | h1
    · rw [regionStep] at h1
      cases hconf : pyEndsWith confExt a with
      | true =>
        rw [if_pos hconf] at h1
        rcases mem_dictInsert acc (codeOfFilename a) (regionInfo a) x h1 with h2 | h2
        · exact Or.inl h2
        · exact Or.inr ⟨a, List.mem_cons_self a L, hconf, h2⟩
      | false =>
        rw [if_neg (by simp [hconf])] at h1
        exact Or.inl h1
    · rcases h1 with ⟨f, hfL, hconf, hx⟩
      exact Or.inr ⟨f, List.mem_cons_of_mem a hfL, hconf, hx⟩

theorem lookup_regions (L : List Str) (r : Str) (info : RegionInfo)
    (h : List.lookup r (get_available_regions (some L)) = some info) :
    ∃ f ∈ L, pyEndsWith confExt f = true ∧ r = codeOfFilename f ∧
      info = regionInfo f := by
  have hmem := lookup_mem _ r info h
  rw [get_available_regions] at hmem
  rcases mem_foldl_regions L [] (r, info) hmem with h1 | h1
  · simp at h1
  · rcases h1 with ⟨f, hfL, hconf, hx⟩
    have hr : r = codeOfFilename f := congrArg Prod.fst hx
    have hi : info = regionInfo f := congrArg Prod.snd hx
    exact ⟨f, hfL, hconf, hr, hi⟩

/-! ### Lemmas about the config-file parser -/

theorem findWG_append_not (pre rest : List Str)
    (h : ∀ l ∈ pre, pyStartsWith wgKey l = false) :
    findWG (pre ++ rest) = findWG rest := by
  induction pre with
  | nil => rfl
  | cons a t ih =>
    have ha := h a (List.mem_cons_self a t)
    rw [List.cons_append, findWG, ha]
    simp only [Bool.false_eq_true, if_false]
    exact ih (fun g hg => h g (List.mem_cons_of_mem a hg))

theorem findWG_all_not (lines : List Str)
    (h : ∀ l ∈ lines, pyStartsWith wgKey l = false) :
    findWG lines = .ok none := by
  have h0 := findWG_append_not lines [] h
  rw [List.append_nil] at h0
  rw [h0]
  rfl

theorem findWG_first (pre : List Str) (l : Str) (post : List Str)
    (hpre : ∀ m ∈ pre, pyStartsWith wgKey m = false)
    (hl : pyStartsWith wgKey l = true) :
    findWG (pre ++ l :: post) =
      match parseWG l with
      | .ok c => .ok (some c)
      | .exn => .exn := by
  rw [findWG_append_not pre (l :: post) hpre, findWG, hl]
  simp

theorem parseWG_ok_of_mem (l : Str) (h : ('=' : Char) ∈ l) :
    ∃ c, parseWG l = .ok c := by
  rcases exists_first_mem '=' l h with ⟨p, r, hpr, hp⟩
  subst hpr
  rw [parseWG, pySplit_single_append '=' p r hp]
  cases hq : pySplit ['='] r with
  | nil => exact absurd hq (pySplit_ne_nil _ _)
  | cons x xs =>
    refine ⟨codeOfName (pyReplace confExt [] (basename (pyStrip x))), ?_⟩
    simp [List.get?]

theorem findWG_isOk (lines : List Str)
    (h : ∀ l ∈ lines, pyStartsWith wgKey l = true → ('=' : Char) ∈ l) :
    (findWG lines).isOk = true := by
  induction lines with
  | nil => rfl
  | cons a t ih =>
    rw [findWG]
    cases ha : pyStartsWith wgKey a with
    | false =>
      simp only [Bool.false_eq_true, if_false]
      exact ih (fun g hg => h g (List.mem_cons_of_mem a hg))
    | true =>
      rcases parseWG_ok_of_mem a (h a (List.mem_cons_self a t) ha) with ⟨c, hc⟩
      simp [hc, PyResult.isOk]

theorem findWG_cons_not (l : Str) (rest : List Str)
    (h : pyStartsWith wgKey l = false) : findWG (l :: rest) = findWG rest := by
  rw [findWG, h]
  simp

theorem findWG_cons_found (l : Str) (rest : List Str)
    (h : pyStartsWith wgKey l = true) :
    findWG (l :: rest) =
      match parseWG l with
      | .ok c => .ok (some c)
      | .exn => .exn := by
  rw [findWG, h]
  simp

/-- The round-trip core: reading back the config file that
`update_config` wrote for profile filename `f` re-derives exactly the
code that `get_available_regions` derived from `f`, provided `f`
contains no `=`, no newline and no `/`. -/
theorem get_current_of_update (f : Str)
    (hconf : pyEndsWith confExt f = true)
    (h1 : ('=' : Char) ∉ f) (h2 : ('\n' : Char) ∉ f)
    (h3 : ('/' : Char) ∉ f) :
    get_current_region (some (update_config (osJoin REGIONS_DIR f))) =
      .ok (some (codeOfFilename f)) := by
  have hjoin : osJoin REGIONS_DIR f = REGIONS_DIR ++ '/' :: f := by
    rw [osJoin, pyStartsWith_single_eq_false '/' f h3]
    simp only [Bool.false_eq_true, if_false]
    rw [if_neg (by decide), if_neg (by decide)]
  have hA : "# Proton VPN Configuration\n# Managed by proton-ctl API\n\nWGConfig = ".toList
      = "# Proton VPN Configuration".toList ++ '\n' ::
        ("# Managed by proton-ctl API".toList ++ '\n' ::
          ([] ++ '\n' :: "WGConfig = ".toList)) := by decide
  have hT : "\n\n[Socks5]\nBindAddress = ".toList ++
        (DEFAULT_SOCKS_BIND ++ "\n".toList)
      = '\n' :: "\n[Socks5]\nBindAddress = 127.0.0.1:25345\n".toList := by decide
  have hcontent : update_config (REGIONS_DIR ++ '/' :: f) =
      "# Proton VPN Configuration".toList ++ '\n' ::
        ("# Managed by proton-ctl API".toList ++ '\n' ::
          ([] ++ '\n' ::
            (("WGConfig = ".toList ++ (REGIONS_DIR ++ '/' :: f)) ++ '\n' ::
              "\n[Socks5]\nBindAddress = 127.0.0.1:25345\n".toList))) := by
    rw [update_config, update_config_content]
    simp only [List.append_assoc]
    rw [hA, hT]
    simp only [List.append_assoc, List.cons_append, List.nil_append]
  have hWp : ('\n' : Char) ∉ ("WGConfig = ".toList ++ (REGIONS_DIR ++ '/' :: f)) := by
    intro hmem
    rcases List.mem_append.mp hmem with h | h
    · exact absurd h (by decide)
    · rcases List.mem_append.mp h with h | h
      · exact absurd h (by decide)
      · rcases List.mem_cons.mp h with h | h
        · exact absurd h (by decide)
        · exact h2 h
  have hstrip : pyStrip (REGIONS_DIR ++ '/' :: f) = REGIONS_DIR ++ '/' :: f := by
    rcases (pyEndsWith_iff confExt f).mp hconf with ⟨g, hg⟩
    have hR : REGIONS_DIR = '/' :: "etc/wireproxy/regions".toList := by decide
    have hhead : (REGIONS_DIR ++ '/' :: f).head? = some '/' := by
      rw [hR]
      rfl
    have hlast : (REGIONS_DIR ++ '/' :: f).getLast? = some 'f' := by
      have hc5 : confExt = ".con".toList ++ ['f'] := by decide
      rw [hg, hc5]
      rw [show REGIONS_DIR ++ '/' :: (g ++ (".con".toList ++ ['f']))
            = (REGIONS_DIR ++ '/' :: (g ++ ".con".toList)) ++ ['f'] by
        simp [List.append_assoc]]
      exact List.getLast?_concat _
    exact pyStrip_of_ends _ '/' 'f' hhead hlast (by decide) (by decide)
  have hparse : parseWG ("WGConfig = ".toList ++ (REGIONS_DIR ++ '/' :: f)) =
      .ok (codeOfFilename f) := by
    have hW : ("WGConfig = ".toList : Str)
        = "WGConfig ".toList ++ '=' :: [' '] := by decide
    have e : "WGConfig = ".toList ++ (REGIONS_DIR ++ '/' :: f) =
        "WGConfig ".toList ++ '=' :: (' ' :: (REGIONS_DIR ++ '/' :: f)) := by
      rw [hW]
      simp [List.append_assoc]
    have hne : ('=' : Char) ∉ (' ' :: (REGIONS_DIR ++ '/' :: f)) := by
      intro hmem
      rcases List.mem_cons.mp hmem with h | h
      · exact absurd h (by decide)
      · rcases List.mem_append.mp h with h | h
        · exact absurd h (by decide)
        · rcases List.mem_cons.mp h with h | h
          · exact absurd h (by decide)
          · exact h1 h
    rw [e, parseWG, pySplit_single_append '=' ("WGConfig ".toList) _ (by decide),
        pySplit_of_not_mem '=' _ hne]
    simp only [List.get?]
    rw [pyStrip_cons_space, hstrip, basename_append REGIONS_DIR f h3]
    rfl
  rw [hjoin]
  simp only [get_current_region]
  rw [hcontent,
      pySplit_single_append '\n' ("# Proton VPN Configuration".toList) _ (by decide),
      pySplit_single_append '\n' ("# Managed by proton-ctl API".toList) _ (by decide),
      pySplit_single_append '\n' ([] : Str) _ (by simp),
      pySplit_single_append '\n' ("WGConfig = ".toList ++ (REGIONS_DIR ++ '/' :: f)) _ hWp,
      findWG_cons_not _ _ (by decide), findWG_cons_not _ _ (by decide),
      findWG_cons_not _ _ (by decide),
      findWG_cons_found _ _ (pyStartsWith_append wgKey ("WGConfig = ".toList) _ (by decide)),
      hparse]

/-! ### The claims -/

set_option maxRecDepth 100000 in
/-- C1, counterexample: the round-trip `switchRegion(r)` then
`currentRegionCode() = r` fails for a region whose profile filename
contains `=`.  With the regions directory holding only `x=jp.conf`, the
code `x=jp` is a key of `listRegions()` and switching to it succeeds
(daemon stopped, nothing external touches the files), yet
`currentRegionCode()` afterwards returns `x`, not `x=jp`, because
`get_current_region` splits the `WGConfig` line at every `=`. -/
theorem c1_round_trip_counterexample :
    (switch_region (FsState.mk none (some ["x=jp.conf".toList]))
        (some ("x=jp".toList)) false (true, [])).1 =
      SwitchResp.success ("x=jp".toList) false ∧
    get_current_region
        (switch_region (FsState.mk none (some ["x=jp.conf".toList]))
          (some ("x=jp".toList)) false (true, [])).2.1.config =
      PyResult.ok (some ("x".toList)) ∧
    ("x".toList : Str) ≠ "x=jp".toList := by decide

/-- C1, amended: for every region code `r` that is a key of
`listRegions()`, if `switchRegion(r)` succeeds and no external process
modifies the config file or the regions directory, a subsequent
`currentRegionCode()` returns exactly `r` — provided every filename in
the regions directory contains no `=`, no newline and no `/`
character. -/
theorem c1_round_trip (st : FsState) (L : List Str) (r : Str)
    (active : Bool) (res : Bool × Str) (b : Bool)
    (hL : st.regions = some L)
    (hclean : ∀ f ∈ L, ('=' : Char) ∉ f ∧ ('\n' : Char) ∉ f ∧ ('/' : Char) ∉ f)
    (hsucc : (switch_region st (some r) active res).1 = SwitchResp.success r b) :
    get_current_region (switch_region st (some r) active res).2.1.config =
      PyResult.ok (some r) := by
  by_cases hr : r = []
  · simp only [switch_region, if_pos hr] at hsucc
    exact SwitchResp.noConfusion hsucc
  · cases hlook : List.lookup r (get_available_regions st.regions) with
    | none =>
      simp only [switch_region, if_neg hr, hlook] at hsucc
      exact SwitchResp.noConfusion hsucc
    | some info =>
      rcases lookup_regions L r info (by rw [← hL]; exact hlook)
        with ⟨f, hfL, hconf, hrf, hinfo⟩
      rcases hclean f hfL with ⟨hc1, hc2, hc3⟩
      have hcfg : (switch_region st (some r) active res).2.1.config =
          some (update_config info.file) := by
        simp only [switch_region, if_neg hr, hlook]
        cases active with
        | false => rfl
        | true =>
          cases hres : res.1 with
          | true => simp [hres]
          | false => simp [hres]
      rw [hcfg, hinfo, hrf]
      have hfile : (regionInfo f).file = osJoin REGIONS_DIR f := rfl
      rw [hfile]
      exact get_current_of_update f hconf hc1 hc2 hc3

set_option maxRecDepth 100000 in
/-- C1, witness for the amended round-trip at a concrete state:
profiles directory `[proton-jp.conf]`, daemon stopped, switch to
`jp`. -/
theorem c1_round_trip_witness :
    get_current_region
        (switch_region (FsState.mk none (some ["proton-jp.conf".toList]))
          (some ("jp".toList)) false (true, [])).2.1.config =
      PyResult.ok (some ("jp".toList)) :=
  c1_round_trip (FsState.mk none (some ["proton-jp.conf".toList]))
    ["proton-jp.conf".toList] ("jp".toList) false (true, []) false rfl
    (by decide) (by decide)

/-- C2: for every valid (nonempty, known) requested region, if the
daemon was running and the restart fails, `switchRegion` fails with
`RestartFailed` (HTTP 500), yet the config file has already been
overwritten to the requested region's profile path; the write is not
rolled back, and the restart action was issued. -/
theorem c2_no_rollback (st : FsState) (r : Str) (info : RegionInfo) (e : Str)
    (hr : r ≠ [])
    (hlook : List.lookup r (get_available_regions st.regions) = some info) :
    switch_region st (some r) true (false, e) =
      (SwitchResp.restartFailed e,
       FsState.mk (some (update_config info.file)) st.regions, true) ∧
    switchStatusCode (switch_region st (some r) true (false, e)).1 = 500 := by
  have h0 : switch_region st (some r) true (false, e) =
      (SwitchResp.restartFailed e,
       FsState.mk (some (update_config info.file)) st.regions, true) := by
    simp only [switch_region, if_neg hr, hlook]
    simp
  exact ⟨h0, by rw [h0]; rfl⟩

set_option maxRecDepth 100000 in
/-- C2, witness: daemon running, restart fails with diagnostic `boom`,
switching to `jp` from a directory holding `proton-jp.conf`. -/
theorem c2_no_rollback_witness :
    switch_region (FsState.mk none (some ["proton-jp.conf".toList]))
        (some ("jp".toList)) true (false, "boom".toList) =
      (SwitchResp.restartFailed ("boom".toList),
       FsState.mk
         (some (update_config (regionInfo ("proton-jp.conf".toList)).file))
         (some ["proton-jp.conf".toList]), true) ∧
    switchStatusCode
        (switch_region (FsState.mk none (some ["proton-jp.conf".toList]))
          (some ("jp".toList)) true (false, "boom".toList)).1 = 500 :=
  c2_no_rollback (FsState.mk none (some ["proton-jp.conf".toList]))
    ("jp".toList) (regionInfo ("proton-jp.conf".toList)) ("boom".toList)
    (by decide) (by decide)

set_option maxRecDepth 100000 in
/-- C3, counterexample: the status and region queries are not total.  A
config file whose content is the single line `WGConfig` (it starts with
the scanned key but contains no `=`) makes `get_current_region` raise an
uncaught `IndexError`, and the status endpoint raises with it instead of
returning a response. -/
theorem c3_total_counterexample :
    get_current_region (some ("WGConfig".toList)) = PyResult.exn ∧
    status_endpoint (FsState.mk (some ("WGConfig".toList)) none) false =
      PyResult.exn := by decide

/-- C3, amended: `getStatus()` and `currentRegionCode()` return normally
for every filesystem and service-manager state in which every config
line starting with `WGConfig` contains an `=`; when the config file is
absent they report region none, and when no line starts with `WGConfig`
the region is none.  (Without that proviso a `WGConfig` line lacking
`=` raises `IndexError`.) -/
theorem c3_queries_total (st : FsState) (active : Bool)
    (h : ∀ content, st.config = some content →
      ∀ l ∈ pySplit ['\n'] content, pyStartsWith wgKey l = true →
        ('=' : Char) ∈ l) :
    (get_current_region st.config).isOk = true ∧
    (status_endpoint st active).isOk = true ∧
    (st.config = none →
      status_endpoint st active =
        PyResult.ok (StatusResp.mk active none PROTON_CONFIG)) ∧
    (∀ content, st.config = some content →
      (∀ l ∈ pySplit ['\n'] content, pyStartsWith wgKey l = false) →
      get_current_region st.config = PyResult.ok none) := by
  have hok : (get_current_region st.config).isOk = true := by
    cases hc : st.config with
    | none => rfl
    | some content =>
      simp only [get_current_region]
      exact findWG_isOk _ (h content hc)
  refine ⟨hok, ?_, ?_, ?_⟩
  · rw [status_endpoint]
    cases hg : get_current_region st.config with
    | ok v => rfl
    | exn =>
      rw [hg] at hok
      simp [PyResult.isOk] at hok
  · intro hnone
    simp only [status_endpoint, hnone, get_current_region]
  · intro content hc hnot
    rw [hc]
    simp only [get_current_region]
    exact findWG_all_not _ hnot

/-- C3, witness for the amended totality at the state with no config
file. -/
theorem c3_queries_total_witness :
    (get_current_region (FsState.mk none none).config).isOk = true ∧
    (status_endpoint (FsState.mk none none) false).isOk = true ∧
    ((FsState.mk none none).config = none →
      status_endpoint (FsState.mk none none) false =
        PyResult.ok (StatusResp.mk false none PROTON_CONFIG)) ∧
    (∀ content, (FsState.mk none none).config = some content →
      (∀ l ∈ pySplit ['\n'] content, pyStartsWith wgKey l = false) →
      get_current_region (FsState.mk none none).config = PyResult.ok none) :=
  c3_queries_total (FsState.mk none none) false
    (fun _ hcontra => absurd hcontra (by simp))

/-- C4: for every nonempty requested code that is not a key of
`listRegions()`, `switchRegion` returns `UnknownRegion` carrying exactly
the key list of `listRegions()` at that moment (HTTP 400), the
filesystem state is unchanged, and no restart action is issued. -/
theorem c4_unknown_region (st : FsState) (r : Str) (active : Bool)
    (res : Bool × Str) (hr : r ≠ [])
    (hlook : List.lookup r (get_available_regions st.regions) = none) :
    switch_region st (some r) active res =
      (SwitchResp.unknownRegion r
        ((get_available_regions st.regions).map Prod.fst), st, false) ∧
    switchStatusCode (switch_region st (some r) active res).1 = 400 := by
  have h0 : switch_region st (some r) active res =
      (SwitchResp.unknownRegion r
        ((get_available_regions st.regions).map Prod.fst), st, false) := by
    simp only [switch_region, if_neg hr, hlook]
  exact ⟨h0, by rw [h0]; rfl⟩

set_option maxRecDepth 100000 in
/-- C4, witness: requesting `zz` against a directory holding only
`proton-jp.conf`. -/
theorem c4_unknown_region_witness :
    switch_region (FsState.mk none (some ["proton-jp.conf".toList]))
        (some ("zz".toList)) true (true, []) =
      (SwitchResp.unknownRegion ("zz".toList)
        ((get_available_regions
          (FsState.mk none (some ["proton-jp.conf".toList])).regions).map
            Prod.fst),
       FsState.mk none (some ["proton-jp.conf".toList]), false) ∧
    switchStatusCode
        (switch_region (FsState.mk none (some ["proton-jp.conf".toList]))
          (some ("zz".toList)) true (true, [])).1 = 400 :=
  c4_unknown_region (FsState.mk none (some ["proton-jp.conf".toList]))
    ("zz".toList) true (true, []) (by decide) (by decide)

/-- C5: for every request whose region field is missing or the empty
string, `switchRegion` returns `InvalidRequest` (HTTP 400) and — for
every filesystem state and service-manager behaviour alike — leaves the
state untouched and issues no service-manager action. -/
theorem c5_invalid_request (st : FsState) (active : Bool) (res : Bool × Str) :
    switch_region st none active res = (SwitchResp.invalidRequest, st, false) ∧
    switch_region st (some []) active res =
      (SwitchResp.invalidRequest, st, false) ∧
    switchStatusCode SwitchResp.invalidRequest = 400 := by
  refine ⟨rfl, ?_, rfl⟩
  simp [switch_region]

set_option maxRecDepth 100000 in
/-- C6, counterexample: with two profile files `a-jp.conf` and
`b-jp.conf` both present, both derive the code `jp`, but the catalog
maps `jp` to `b-jp.conf`'s entry (last enumeration wins), so the claim
that every file `X-Y.conf` has its own path under key `Y` fails for
`a-jp.conf`. -/
theorem c6_catalog_counterexample :
    "a-jp.conf".toList ∈ ["a-jp.conf".toList, "b-jp.conf".toList] ∧
    codeOfFilename ("a-jp.conf".toList) = "jp".toList ∧
    List.lookup ("jp".toList)
        (get_available_regions
          (some ["a-jp.conf".toList, "b-jp.conf".toList])) =
      some (regionInfo ("b-jp.conf".toList)) ∧
    (regionInfo ("b-jp.conf".toList)).file ≠
      osJoin REGIONS_DIR ("a-jp.conf".toList) := by decide

/-- C6, amended: for every file `f` ending in `.conf` in the profiles
directory whose derived code (the part after the last `-` of the stem,
or the whole stem without a `-`) collides with no other listed profile
file, `listRegions()` maps that code to `f`'s path; `X-Y.conf` derives
`Y` and `Y.conf` derives `Y` as in the concrete conjuncts; and when the
profiles directory does not exist the mapping is empty. -/
theorem c6_region_catalog (L : List Str) (f : Str)
    (hf : f ∈ L) (hconf : pyEndsWith confExt f = true)
    (huniq : ∀ g ∈ L, pyEndsWith confExt g = true →
      codeOfFilename g = codeOfFilename f → g = f) :
    List.lookup (codeOfFilename f) (get_available_regions (some L)) =
      some (regionInfo f) ∧
    (regionInfo f).file = osJoin REGIONS_DIR f ∧
    codeOfFilename ("proton-jp.conf".toList) = "jp".toList ∧
    codeOfFilename ("us.conf".toList) = "us".toList ∧
    get_available_regions none = [] := by
  refine ⟨?_, rfl, by decide, by decide, rfl⟩
  rw [get_available_regions]
  exact lookup_foldl_unique L [] f hf hconf huniq

set_option maxRecDepth 100000 in
/-- C6, witness for the amended catalog property at the listing
`[proton-jp.conf, notes.txt, us.conf]` with `f = proton-jp.conf`. -/
theorem c6_region_catalog_witness :
    List.lookup (codeOfFilename ("proton-jp.conf".toList))
        (get_available_regions
          (some ["proton-jp.conf".toList, "notes.txt".toList, "us.conf".toList])) =
      some (regionInfo ("proton-jp.conf".toList)) ∧
    (regionInfo ("proton-jp.conf".toList)).file =
      osJoin REGIONS_DIR ("proton-jp.conf".toList) ∧
    codeOfFilename ("proton-jp.conf".toList) = "jp".toList ∧
    codeOfFilename ("us.conf".toList) = "us".toList ∧
    get_available_regions none = [] :=
  c6_region_catalog
    ["proton-jp.conf".toList, "notes.txt".toList, "us.conf".toList]
    ("proton-jp.conf".toList) (by decide) (by decide) (by decide)

/-- C7: `startDaemon()` fails with `NotConfigured` (HTTP 400) exactly
when the config file does not exist, and then issues no start; when the
file exists the start action is issued, a service-manager failure
surfaces `StartFailed` (HTTP 500) carrying the manager's diagnostic
text, and success reports running true. -/
theorem c7_start_requires_config (cfg : Option Str) (res : Bool × Str) :
    ((start cfg res).1 = StartResp.notConfigured ↔ cfg = none) ∧
    startStatusCode StartResp.notConfigured = 400 ∧
    (cfg = none → (start cfg res).2 = false) ∧
    (cfg ≠ none → (start cfg res).2 = true) ∧
    (cfg ≠ none → res.1 = true → (start cfg res).1 = StartResp.ok true) ∧
    (cfg ≠ none → res.1 = false →
      (start cfg res).1 = StartResp.failed res.2 ∧
      startStatusCode (start cfg res).1 = 500) := by
  cases cfg with
  | none =>
    refine ⟨by simp [start], rfl, fun _ => rfl, ?_, ?_, ?_⟩
    · intro h
      exact absurd rfl h
    · intro h
      exact absurd rfl h
    · intro h
      exact absurd rfl h
  | some c =>
    refine ⟨?_, rfl, ?_, fun _ => rfl, ?_, ?_⟩
    · constructor
      · intro h
        cases hres : res.1 with
        | true => simp [start, hres] at h
        | false => simp [start, hres] at h
      · intro h
        exact Option.noConfusion h
    · intro h
      exact Option.noConfusion h
    · intro _ hres
      simp [start, hres]
    · intro _ hres
      refine ⟨by simp [start, hres], ?_⟩
      simp [start, hres, startStatusCode]

/-- C7, witness: with an existing config file and a failing service
manager, the start endpoint returns `StartFailed` with the diagnostic
text and status 500. -/
theorem c7_start_requires_config_witness :
    (start (some ("cfg".toList)) (false, "err".toList)).1 =
      StartResp.failed ("err".toList) ∧
    startStatusCode (start (some ("cfg".toList)) (false, "err".toList)).1 =
      500 :=
  (c7_start_requires_config (some ("cfg".toList)) (false, "err".toList)).2.2.2.2.2
    (by simp) rfl

/-- C8: the stop endpoint issues the stop action unconditionally (the
handler never consults the daemon's state), and — with the service
manager modelled per the spec as succeeding on a stop of an
already-stopped service — two consecutive `stopDaemon()` calls from any
initial daemon state both succeed, both report running false, and both
issue the action. -/
theorem c8_stop_idempotent (s : Bool) :
    stop (smStop s).1 = (StopResp.ok false, true) ∧
    (smStop s).2 = false ∧
    stop (smStop (smStop s).2).1 = (StopResp.ok false, true) ∧
    (smStop (smStop s).2).2 = false :=
  ⟨rfl, rfl, rfl, rfl⟩

/-- C9: `get_current_region` derives the code from the first line
starting with the prefix `WGConfig` (so `WGConfigBackup = x` also
matches, yielding `x`), taking as path the segment between the first
and second `=` of that line; hence for a `WGConfig` path containing
`=`, the code comes from the truncated prefix (`a` from `/r/a=b-jp.conf`),
not from the full filename (whose derived code would be `jp`). -/
theorem c9_first_wg_line (pre : List Str) (l : Str) (post : List Str)
    (hpre : ∀ m ∈ pre, pyStartsWith wgKey m = false)
    (hl : pyStartsWith wgKey l = true) :
    (findWG (pre ++ l :: post) =
      match parseWG l with
      | .ok c => PyResult.ok (some c)
      | .exn => PyResult.exn) ∧
    get_current_region (some ("WGConfigBackup = x".toList)) =
      PyResult.ok (some ("x".toList)) ∧
    get_current_region (some ("WGConfig = /r/a=b-jp.conf".toList)) =
      PyResult.ok (some ("a".toList)) ∧
    codeOfFilename ("a=b-jp.conf".toList) = "jp".toList ∧
    ("a".toList : Str) ≠ "jp".toList := by
  refine ⟨findWG_first pre l post hpre hl, by decide, by decide, by decide,
    by decide⟩

set_option maxRecDepth 100000 in
/-- C9, witness: a comment line followed by a `WGConfigBackup = x`
line. -/
theorem c9_first_wg_line_witness :
    findWG (["# comment".toList] ++ ("WGConfigBackup = x".toList) :: []) =
      match parseWG ("WGConfigBackup = x".toList) with
      | .ok c => PyResult.ok (some c)
      | .exn => PyResult.exn :=
  (c9_first_wg_line ["# comment".toList] ("WGConfigBackup = x".toList) []
    (by decide) (by decide)).1

set_option maxRecDepth 100000 in
/-- C10: both the catalog and the current-region query strip the stem by
deleting every occurrence of `.conf` from the filename, not only a
trailing extension: `a-b.confc.conf` yields the stem `a-bc` and the code
`bc` (listed under `bc`, and read back as `bc`), where trailing-only
stripping would give `b.confc`. -/
theorem c10_replace_all :
    pyReplace confExt [] ("a-b.confc.conf".toList) = "a-bc".toList ∧
    codeOfFilename ("a-b.confc.conf".toList) = "bc".toList ∧
    List.lookup ("bc".toList)
        (get_available_regions (some ["a-b.confc.conf".toList])) =
      some (regionInfo ("a-b.confc.conf".toList)) ∧
    get_current_region
        (some ("WGConfig = /etc/wireproxy/regions/a-b.confc.conf".toList)) =
      PyResult.ok (some ("bc".toList)) ∧
    ("bc".toList : Str) ≠ "b.confc".toList := by decide
